import Mathlib

/-!
Verification of the transcript deduplication / sentiment pipeline.

This file gives a shallow embedding, in Lean 4, of the core logic of the
`zanista-sentiment` repository and proves (or refutes) the frozen claims
about it.  Tables are embedded as `List Row`; every pandas
`drop_duplicates(subset = ks, keep = first)` becomes `dedupBy` below;
Python floats are modelled exactly as rationals (`ℚ`).

Source map:
* `dedupBy`, `stage1`, `mergeEvent`, `stage2`, `stage3`, `eventId`,
  `verifyAndSave` — `src/data_processing/02_clean_data.py` (the fixed
  revision of the pipeline; `src/clean_data.py` is the superseded revision
  of the same script, which lacks the Stage-2 transcript-id reassignment).
* `aggFilter`, `eventGroup`, `presentationText` —
  `src/data_processing/03_prepare_for_sentiment.py`.
* `normalizeProbs`, `reportedProbs`, `parseResponse` — the parse/normalize
  block of `ProductionSentimentAnalyzer.analyze_with_retry` in
  `src/sentiment_analysis/run_full_analysis.py` (identical in
  `sentiment_analyzer.py`).
* `ModelPricing.calculate_cost`, `MODEL_PRICING`, `get_model_pricing` —
  `src/config/pricing.py`.
* `retryGo`, `analyzeWithRetry` — the retry loop of
  `ProductionSentimentAnalyzer.analyze_with_retry`.
-/

namespace Zanista

/-! ### Generic first-occurrence deduplication

`dedupBy key l` keeps, in input order, the first occurrence of each
distinct `key` value — the semantics of pandas
`drop_duplicates(subset = keys, keep = 'first')`.  The accumulator
`seen` holds the key values already emitted. -/

def dedupByAux {α β : Type} [DecidableEq β] (key : α → β) (seen : List β) : List α → List α
  | [] => []
  | r :: rs =>
    if key r ∈ seen then dedupByAux key seen rs
    else r :: dedupByAux key (key r :: seen) rs

def dedupBy {α β : Type} [DecidableEq β] (key : α → β) (l : List α) : List α :=
  dedupByAux key [] l

variable {α β : Type} [DecidableEq β] {key : α → β}

theorem dedupByAux_sublist (key : α → β) :
    ∀ (l : List α) (seen : List β), List.Sublist (dedupByAux key seen l) l := by
  intro l
  induction l with
  | nil => intro seen; simp [dedupByAux]
  | cons r rs ih =>
    intro seen
    by_cases h : key r ∈ seen
    · simpa [dedupByAux, h] using (ih seen).trans (List.sublist_cons_self r rs)
    · simpa [dedupByAux, h] using (ih (key r :: seen)).cons₂ r

theorem dedupBy_sublist (key : α → β) (l : List α) : List.Sublist (dedupBy key l) l :=
  dedupByAux_sublist key l []

theorem mem_of_mem_dedupBy {l : List α} {x : α} (h : x ∈ dedupBy key l) : x ∈ l :=
  (dedupBy_sublist key l).subset h

theorem dedupByAux_key_mem {b : β} :
    ∀ {l : List α} {seen : List β},
      b ∈ (dedupByAux key seen l).map key ↔ b ∈ l.map key ∧ b ∉ seen := by
  intro l
  induction l with
  | nil => intro seen; simp [dedupByAux]
  | cons r rs ih =>
    intro seen
    by_cases h : key r ∈ seen
    · rw [dedupByAux, if_pos h, ih]
      simp only [List.map_cons, List.mem_cons]
      constructor
      · rintro ⟨hb, hs⟩; exact ⟨Or.inr hb, hs⟩
      · rintro ⟨hb | hb, hs⟩
        · exact absurd (hb ▸ h) hs
        · exact ⟨hb, hs⟩
    · rw [dedupByAux, if_neg h]
      simp only [List.map_cons, List.mem_cons, ih]
      constructor
      · rintro (hb | ⟨hb, hs⟩)
        · exact ⟨Or.inl hb, hb ▸ h⟩
        · exact ⟨Or.inr hb, fun hmem => hs (Or.inr hmem)⟩
      · rintro ⟨hb | hb, hs⟩
        · exact Or.inl hb
        · by_cases hbr : b = key r
          · exact Or.inl hbr
          · refine Or.inr ⟨hb, fun hmem => ?_⟩
            rcases hmem with hc | hc
            · exact hbr hc
            · exact hs hc

theorem dedupBy_key_mem {l : List α} {b : β} :
    b ∈ (dedupBy key l).map key ↔ b ∈ l.map key := by
  rw [dedupBy, dedupByAux_key_mem]
  simp

theorem dedupByAux_key_nodup :
    ∀ (l : List α) (seen : List β), ((dedupByAux key seen l).map key).Nodup := by
  intro l
  induction l with
  | nil => intro seen; simp [dedupByAux]
  | cons r rs ih =>
    intro seen
    by_cases h : key r ∈ seen
    · simpa [dedupByAux, h] using ih seen
    · simp only [dedupByAux, if_neg h, List.map_cons, List.nodup_cons]
      refine ⟨fun hmem => ?_, ih (key r :: seen)⟩
      rcases dedupByAux_key_mem.mp hmem with ⟨-, hnotin⟩
      exact hnotin (List.mem_cons_self _ _)

theorem dedupBy_key_nodup (l : List α) : ((dedupBy key l).map key).Nodup :=
  dedupByAux_key_nodup l []

theorem dedupByAux_eq_self :
    ∀ {l : List α} {seen : List β}, (l.map key).Nodup → (∀ x ∈ l, key x ∉ seen) →
      dedupByAux key seen l = l := by
  intro l
  induction l with
  | nil => intro seen _ _; rfl
  | cons r rs ih =>
    intro seen hnd hseen
    have hr : key r ∉ seen := hseen r (List.mem_cons_self r rs)
    simp only [List.map_cons, List.nodup_cons] at hnd
    have hrs : ∀ x ∈ rs, key x ∉ key r :: seen := by
      intro x hx
      simp only [List.mem_cons, not_or]
      exact ⟨fun hxr => hnd.1 (hxr ▸ List.mem_map_of_mem key hx),
        hseen x (List.mem_cons_of_mem r hx)⟩
    simp [dedupByAux, hr, ih hnd.2 hrs]

theorem dedupBy_eq_self_of_nodup {l : List α} (h : (l.map key).Nodup) :
    dedupBy key l = l :=
  dedupByAux_eq_self h (by simp)

theorem dedupBy_idem (l : List α) : dedupBy key (dedupBy key l) = dedupBy key l :=
  dedupBy_eq_self_of_nodup (dedupBy_key_nodup l)

theorem dedupBy_head? (l : List α) : (dedupBy key l).head? = l.head? := by
  cases l with
  | nil => rfl
  | cons r rs => simp [dedupBy, dedupByAux]

/-! ### Data model

One transcript-component record, with the columns the pipeline logic
touches (`src/data_processing/02_clean_data.py`,
`03_prepare_for_sentiment.py`); all remaining columns are passthrough and
irrelevant to the claims. -/

structure Row where
  companyid : ℕ
  transcriptid : ℕ
  headline : String
  mostimportantdateutc : String
  componentorder : ℕ
  componenttext : String
  speakertypename : String
  transcriptcomponenttypename : String
  word_count : ℕ
deriving DecidableEq

/-- Event key as a structured triple `(company_id, headline, event_date)`. -/
def tripleOf (r : Row) : ℕ × String × String :=
  (r.companyid, r.headline, r.mostimportantdateutc)

/-- String form of an event key, joined with the `|` delimiter. -/
def strOfKey (k : ℕ × String × String) : String :=
  toString k.1 ++ "|" ++ k.2.1 ++ "|" ++ k.2.2

/-- The `event_id` column of Stage 2:
`companyid.astype(str) + '|' + headline.astype(str) + '|' + mostimportantdateutc.astype(str)`. -/
def eventId (r : Row) : String :=
  toString r.companyid ++ "|" ++ r.headline ++ "|" ++ r.mostimportantdateutc

theorem eventId_eq_strOfKey (r : Row) : eventId r = strOfKey (tripleOf r) := rfl

/-- Rows of the table whose string `event_id` is `e` (a pandas group). -/
def eventRows (l : List Row) (e : String) : List Row :=
  l.filter (fun r => eventId r = e)

/-- Rows of the table whose structured event key is `k`. -/
def keyRows (l : List Row) (k : ℕ × String × String) : List Row :=
  l.filter (fun r => tripleOf r = k)

/-- Distinct transcript ids among the rows of string event `e`
(`groupby('event_id')['transcriptid'].nunique()`). -/
def tidsOf (l : List Row) (e : String) : Finset ℕ :=
  ((eventRows l e).map (·.transcriptid)).toFinset

/-- Distinct transcript ids among the rows of structured event key `k`. -/
def keyTids (l : List Row) (k : ℕ × String × String) : Finset ℕ :=
  ((keyRows l k).map (·.transcriptid)).toFinset

/-- Event `e` has more than one recorded transcript version. -/
def isMultiVersion (l : List Row) (e : String) : Prop :=
  2 ≤ (tidsOf l e).card

/-- Structured event key `k` has more than one recorded transcript version. -/
def isMultiKey (l : List Row) (k : ℕ × String × String) : Prop :=
  2 ≤ (keyTids l k).card

instance (l : List Row) (e : String) : Decidable (isMultiVersion l e) := by
  unfold isMultiVersion; infer_instance

instance (l : List Row) (k : ℕ × String × String) : Decidable (isMultiKey l k) := by
  unfold isMultiKey; infer_instance

/-- Transcript id of the first row (in input order) of event key `k`
(the id of the first version encountered for that event key). -/
def firstKeyTid (l : List Row) (k : ℕ × String × String) : ℕ :=
  ((keyRows l k).head?.map (·.transcriptid)).getD 0

/-- Transcript id of the first row (in input order) of string event `e`
(`merged['transcriptid'].iloc[0]` before the text dedup, which preserves
the first row). -/
def firstTidStr (l : List Row) (e : String) : ℕ :=
  ((eventRows l e).head?.map (·.transcriptid)).getD 0

/-- No two rows of the table have colliding string event ids: whenever the
joined `companyid|headline|date` strings agree, the structured triples
agree.  This fails only when a `headline`/date contains the `|` delimiter
in an adversarial position (the latent collision risk of the string-join
key construction). -/
def eventKeySeparated (l : List Row) : Prop :=
  ∀ r ∈ l, ∀ s ∈ l, eventId r = eventId s → tripleOf r = tripleOf s

instance (l : List Row) : Decidable (eventKeySeparated l) := by
  unfold eventKeySeparated; infer_instance

/-! ### Stage 1 — within-transcript deduplication

`df.drop_duplicates(subset=['transcriptid', 'componenttext'], keep='first')`. -/

def stage1 (l : List Row) : List Row :=
  dedupBy (fun r => (r.transcriptid, r.componenttext)) l

/-! ### Stage 2 — cross-transcript merge (fixed revision)

For each multi-version `event_id`: deduplicate the group by
`componenttext` (keep `'first'`), then assign every surviving row the
unified transcript id `merged['transcriptid'].iloc[0]`.  Rows of
single-version events pass through unchanged.  `multiIds` models the
index of `multi_version_events` (the pandas groupby iteration order);
the theorems hold for every enumeration of the multi-version event ids. -/

def mergeEvent (l : List Row) (e : String) : List Row :=
  match (dedupBy (·.componenttext) (eventRows l e)).head? with
  | none => []
  | some r0 =>
    (dedupBy (·.componenttext) (eventRows l e)).map
      (fun r => { r with transcriptid := r0.transcriptid })

def stage2 (l : List Row) (multiIds : List String) : List Row :=
  l.filter (fun r => (tidsOf l (eventId r)).card = 1)
    ++ (multiIds.map (mergeEvent l)).flatten

/-! ### Stage 3 — company-level cleanup

`df_stage2.drop_duplicates(subset=['companyid', 'componenttext'], keep='first')`. -/

def stage3 (l : List Row) : List Row :=
  dedupBy (fun r => (r.companyid, r.componenttext)) l

/-! ### Lemmas about the merge stages -/

theorem mem_eventRows {l : List Row} {e : String} {x : Row} :
    x ∈ eventRows l e ↔ x ∈ l ∧ eventId x = e := by
  simp [eventRows]

theorem mem_keyRows {l : List Row} {k : ℕ × String × String} {x : Row} :
    x ∈ keyRows l k ↔ x ∈ l ∧ tripleOf x = k := by
  simp [keyRows]

theorem eventId_update_tid (r : Row) (t : ℕ) :
    eventId { r with transcriptid := t } = eventId r := rfl

theorem tripleOf_update_tid (r : Row) (t : ℕ) :
    tripleOf { r with transcriptid := t } = tripleOf r := rfl

theorem tid_mem_tidsOf {l : List Row} {x : Row} (hx : x ∈ l) :
    x.transcriptid ∈ tidsOf l (eventId x) := by
  simp only [tidsOf, List.mem_toFinset, List.mem_map]
  exact ⟨x, mem_eventRows.mpr ⟨hx, rfl⟩, rfl⟩

/-- If the structured key `k` has at least one transcript version, some row
of the table carries key `k`. -/
theorem exists_row_of_multiKey {l : List Row} {k : ℕ × String × String}
    (hk : isMultiKey l k) : ∃ w ∈ l, tripleOf w = k := by
  have hpos : 0 < (keyTids l k).card := lt_of_lt_of_le (by norm_num) hk
  obtain ⟨t, ht⟩ := Finset.card_pos.mp hpos
  simp only [keyTids, List.mem_toFinset, List.mem_map] at ht
  obtain ⟨w, hw, -⟩ := ht
  exact ⟨w, (mem_keyRows.mp hw).1, (mem_keyRows.mp hw).2⟩

/-- Under collision-freeness, the pandas group of the string event id of
`k` is exactly the set of rows with structured key `k`. -/
theorem eventRows_eq_keyRows {l : List Row} {k : ℕ × String × String}
    (hsep : eventKeySeparated l) {w : Row} (hw : w ∈ l) (hwk : tripleOf w = k) :
    eventRows l (strOfKey k) = keyRows l k := by
  unfold eventRows keyRows
  apply List.filter_congr
  intro z hz
  have hwid : eventId w = strOfKey k := by rw [eventId_eq_strOfKey, hwk]
  simp only [decide_eq_decide]
  constructor
  · intro h
    have := hsep z hz w hw (h.trans hwid.symm)
    rw [this, hwk]
  · intro h
    rw [eventId_eq_strOfKey, h]

/-- Everything `mergeEvent` produces: it comes from the text-dedup of the
event group, keeps the event id, and carries the unified transcript id of
the group's first row. -/
theorem mergeEvent_spec {l : List Row} {e : String} {x : Row}
    (hx : x ∈ mergeEvent l e) :
    ∃ y ∈ dedupBy (·.componenttext) (eventRows l e),
      x = { y with transcriptid := firstTidStr l e } := by
  unfold mergeEvent at hx
  split at hx
  · simp at hx
  · next r0 hh =>
    simp only [List.mem_map] at hx
    obtain ⟨y, hy, hxy⟩ := hx
    refine ⟨y, hy, ?_⟩
    have hr0 : firstTidStr l e = r0.transcriptid := by
      rw [dedupBy_head?] at hh
      simp [firstTidStr, hh]
    rw [hr0]
    exact hxy.symm

theorem eventId_of_mem_mergeEvent {l : List Row} {e : String} {x : Row}
    (hx : x ∈ mergeEvent l e) : eventId x = e := by
  obtain ⟨y, hy, rfl⟩ := mergeEvent_spec hx
  rw [eventId_update_tid]
  exact (mem_eventRows.mp (mem_of_mem_dedupBy hy)).2

theorem tid_of_mem_mergeEvent {l : List Row} {e : String} {x : Row}
    (hx : x ∈ mergeEvent l e) : x.transcriptid = firstTidStr l e := by
  obtain ⟨y, hy, rfl⟩ := mergeEvent_spec hx
  rfl

theorem mergeEvent_eq_map {l : List Row} {e : String} (h : eventRows l e ≠ []) :
    mergeEvent l e = (dedupBy (·.componenttext) (eventRows l e)).map
      (fun r => { r with transcriptid := firstTidStr l e }) := by
  have hh : (dedupBy (·.componenttext) (eventRows l e)).head? =
      (eventRows l e).head? := dedupBy_head? _
  unfold mergeEvent
  split
  · next hnone =>
    rw [hh, List.head?_eq_none_iff] at hnone
    exact absurd hnone h
  · next r0 hsome =>
    have hft : firstTidStr l e = r0.transcriptid := by
      rw [hh] at hsome
      simp [firstTidStr, hsome]
    rw [hft]

theorem mem_stage2 {l : List Row} {ids : List String} {x : Row} :
    x ∈ stage2 l ids ↔
      (x ∈ l ∧ (tidsOf l (eventId x)).card = 1) ∨ ∃ e ∈ ids, x ∈ mergeEvent l e := by
  simp [stage2]

/-- All rows of the Stage-2 output sharing one string event id share one
transcript id.  Only the forward direction of the multi-version
enumeration hypothesis is used. -/
theorem stage2_tid_const {l : List Row} {ids : List String}
    (hm : ∀ e ∈ ids, isMultiVersion l e) {x y : Row}
    (hx : x ∈ stage2 l ids) (hy : y ∈ stage2 l ids)
    (hxy : eventId x = eventId y) : x.transcriptid = y.transcriptid := by
  rcases mem_stage2.mp hx with ⟨hxl, hxc⟩ | ⟨e1, he1, hxm⟩
  · rcases mem_stage2.mp hy with ⟨hyl, hyc⟩ | ⟨e2, he2, hym⟩
    · have h1 : x.transcriptid ∈ tidsOf l (eventId x) := tid_mem_tidsOf hxl
      have h2 : y.transcriptid ∈ tidsOf l (eventId x) := by
        rw [hxy]; exact tid_mem_tidsOf hyl
      exact Finset.card_le_one.mp hxc.le _ h1 _ h2
    · have he : eventId y = e2 := eventId_of_mem_mergeEvent hym
      have hmul := hm e2 he2
      rw [← he, ← hxy] at hmul
      unfold isMultiVersion at hmul
      omega
  · rcases mem_stage2.mp hy with ⟨hyl, hyc⟩ | ⟨e2, he2, hym⟩
    · have he : eventId x = e1 := eventId_of_mem_mergeEvent hxm
      have hmul := hm e1 he1
      rw [← he, hxy] at hmul
      unfold isMultiVersion at hmul
      omega
    · have h1 := tid_of_mem_mergeEvent hxm
      have h2 := tid_of_mem_mergeEvent hym
      have he1' : eventId x = e1 := eventId_of_mem_mergeEvent hxm
      have he2' : eventId y = e2 := eventId_of_mem_mergeEvent hym
      rw [h1, h2, ← he1', ← he2', hxy]

/-- A table on which `eventId`-equal rows have equal transcript ids has
exactly one distinct transcript id per nonempty structured event key. -/
theorem keyTids_card_one_of_const {t : List Row}
    (hconst : ∀ x ∈ t, ∀ y ∈ t, eventId x = eventId y →
      x.transcriptid = y.transcriptid)
    {k : ℕ × String × String} (hne : keyRows t k ≠ []) :
    (keyTids t k).card = 1 := by
  obtain ⟨r0, hr0⟩ := List.exists_mem_of_ne_nil _ hne
  have hr0' := mem_keyRows.mp hr0
  rw [Finset.card_eq_one]
  refine ⟨r0.transcriptid, ?_⟩
  rw [Finset.eq_singleton_iff_unique_mem]
  constructor
  · simp only [keyTids, List.mem_toFinset, List.mem_map]
    exact ⟨r0, hr0, rfl⟩
  · intro b hb
    simp only [keyTids, List.mem_toFinset, List.mem_map] at hb
    obtain ⟨y, hy, rfl⟩ := hb
    have hy' := mem_keyRows.mp hy
    have : eventId y = eventId r0 := by
      rw [eventId_eq_strOfKey, eventId_eq_strOfKey, hy'.2, hr0'.2]
    exact hconst y hy'.1 r0 hr0'.1 this

theorem stage3_sublist (t : List Row) : List.Sublist (stage3 t) t :=
  dedupBy_sublist _ t

theorem filter_flatten_nil {p : Row → Bool} :
    ∀ {L : List (List Row)}, (∀ x ∈ L, x.filter p = []) → L.flatten.filter p = [] := by
  intro L
  induction L with
  | nil => intro _; rfl
  | cons a as ih =>
    intro h
    rw [List.flatten_cons, List.filter_append, h a (List.mem_cons_self a as),
      ih (fun x hx => h x (List.mem_cons_of_mem a hx))]
    rfl

theorem filter_flatten_single {p : Row → Bool} {f : String → List Row} {e : String} :
    ∀ {ids : List String}, ids.Nodup → e ∈ ids →
      (∀ e' ∈ ids, e' ≠ e → (f e').filter p = []) → (f e).filter p = f e →
      ((ids.map f).flatten).filter p = f e := by
  intro ids
  induction ids with
  | nil => intro _ he; exact absurd he (List.not_mem_nil e)
  | cons a as ih =>
    intro hnd he h1 h2
    rw [List.map_cons, List.flatten_cons, List.filter_append]
    rcases List.mem_cons.mp he with rfl | he'
    · rw [h2, filter_flatten_nil, List.append_nil]
      intro x hx
      simp only [List.mem_map] at hx
      obtain ⟨e', he'', rfl⟩ := hx
      exact h1 e' (List.mem_cons_of_mem _ he'')
        (fun hc => (List.nodup_cons.mp hnd).1 (hc ▸ he''))
    · have hae : a ≠ e := fun hc => (List.nodup_cons.mp hnd).1 (hc ▸ he')
      rw [h1 a (List.mem_cons_self a as) hae,
        ih (List.nodup_cons.mp hnd).2 he'
          (fun e' he'' hne => h1 e' (List.mem_cons_of_mem a he'') hne) h2]
      rfl

/-- Full characterization of the Stage-2 output rows of a multi-version
structured event key `k` (collision-free case): the text-dedup of the
key's input rows, every surviving row reassigned the unified transcript
id of the key's first version. -/
theorem stage2_keyRows_of_multi {l : List Row} {ids : List String}
    {k : ℕ × String × String}
    (hm : ∀ e, e ∈ ids ↔ isMultiVersion l e) (hnd : ids.Nodup)
    (hsep : eventKeySeparated l) (hk : isMultiKey l k) :
    keyRows (stage2 l ids) k =
      (dedupBy (·.componenttext) (keyRows l k)).map
        (fun r => { r with transcriptid := firstKeyTid l k }) := by
  obtain ⟨w, hw, hwk⟩ := exists_row_of_multiKey hk
  have hrows : eventRows l (strOfKey k) = keyRows l k := eventRows_eq_keyRows hsep hw hwk
  have hkne : keyRows l k ≠ [] :=
    List.ne_nil_of_mem (mem_keyRows.mpr ⟨hw, hwk⟩)
  have hmulti : isMultiVersion l (strOfKey k) := by
    unfold isMultiVersion tidsOf
    rw [hrows]
    exact hk
  have heids : strOfKey k ∈ ids := (hm (strOfKey k)).mpr hmulti
  have hft : firstTidStr l (strOfKey k) = firstKeyTid l k := by
    unfold firstTidStr firstKeyTid
    rw [hrows]
  unfold keyRows stage2
  rw [List.filter_append]
  have hsingles :
      (l.filter (fun r => (tidsOf l (eventId r)).card = 1)).filter
        (fun r => tripleOf r = k) = [] := by
    rw [List.filter_eq_nil_iff]
    intro a ha
    simp only [List.mem_filter, decide_eq_true_eq] at ha
    simp only [decide_eq_true_eq]
    intro hak
    have : eventId a = strOfKey k := by rw [eventId_eq_strOfKey, hak]
    rw [this] at ha
    unfold isMultiVersion at hmulti
    omega
  have hmerge :
      ((ids.map (mergeEvent l)).flatten).filter (fun r => tripleOf r = k) =
        mergeEvent l (strOfKey k) := by
    apply filter_flatten_single hnd heids
    · intro e' he' hne
      rw [List.filter_eq_nil_iff]
      intro x hx
      simp only [decide_eq_true_eq]
      intro hxk
      apply hne
      have h1 : eventId x = e' := eventId_of_mem_mergeEvent hx
      rw [← h1, eventId_eq_strOfKey, hxk]
    · rw [List.filter_eq_self]
      intro x hx
      simp only [decide_eq_true_eq]
      obtain ⟨y, hy, rfl⟩ := mergeEvent_spec hx
      rw [tripleOf_update_tid]
      have hy' : y ∈ keyRows l k := by
        rw [← hrows]
        exact mem_of_mem_dedupBy hy
      exact (mem_keyRows.mp hy').2
  rw [hsingles, hmerge, List.nil_append,
    mergeEvent_eq_map (by rw [hrows]; exact hkne), hrows, hft]
  rfl

/-! ### Verification pass of `02_clean_data.py`

The script recomputes the `event_id` column on the final table, counts
distinct transcript ids per event id, prints a `⚠️ WARNING` line when any
event still has several, and then unconditionally pickles `df_clean`.
`saved = some t` models that unconditional save; `none` would model a run
that halts without writing output (no code path produces it). -/

def hasMergeDefect (t : List Row) : Bool :=
  t.any (fun r => decide (2 ≤ (tidsOf t (eventId r)).card))

structure VerificationOutcome where
  warned : Bool
  saved : Option (List Row)
deriving DecidableEq

def verifyAndSave (t : List Row) : VerificationOutcome :=
  { warned := hasMergeDefect t, saved := some t }

/-! ### Event aggregator (`03_prepare_for_sentiment.py`)

Filter to executive presenter speeches, sort by
`['transcriptid', 'componentorder']`, group by `transcriptid`, and join
each group's `componenttext` with `'\n\n'`.  A group of the sorted frame
equals the stable sort by `componentorder` of the group's rows. -/

def aggFilter (l : List Row) : List Row :=
  l.filter (fun r =>
    r.speakertypename = "Executives" ∧
    r.transcriptcomponenttypename = "Presenter Speech")

def rowOrderLe (a b : Row) : Prop := a.componentorder ≤ b.componentorder

instance : DecidableRel rowOrderLe := fun _ _ => Nat.decLe _ _

instance : IsTotal Row rowOrderLe := ⟨fun _ _ => Nat.le_total _ _⟩

instance : IsTrans Row rowOrderLe := ⟨fun _ _ _ => Nat.le_trans⟩

/-- The rows feeding one aggregated event document, in input order. -/
def groupRows (l : List Row) (tid : ℕ) : List Row :=
  (aggFilter l).filter (fun r => r.transcriptid = tid)

/-- The group, sorted ascending by `componentorder`. -/
def eventGroup (l : List Row) (tid : ℕ) : List Row :=
  List.insertionSort rowOrderLe (groupRows l tid)

/-- The aggregated document's `presentation_text`:
`'\n\n'.join(group['componenttext'].tolist())`. -/
def presentationText (l : List Row) (tid : ℕ) : String :=
  String.intercalate "\n\n" ((eventGroup l tid).map (·.componenttext))

theorem eventGroup_perm (l : List Row) (tid : ℕ) :
    List.Perm (eventGroup l tid) (groupRows l tid) :=
  List.perm_insertionSort rowOrderLe (groupRows l tid)

theorem eventGroup_sorted (l : List Row) (tid : ℕ) :
    (eventGroup l tid).Pairwise rowOrderLe :=
  List.sorted_insertionSort rowOrderLe (groupRows l tid)

/-- Rows pairwise-ordered by `≤` on `componentorder` with pairwise-distinct
orders are pairwise strictly ascending. -/
theorem pairwise_lt_of_le_nodup {L : List Row}
    (hs : L.Pairwise rowOrderLe)
    (hnd : (L.map (·.componentorder)).Nodup) :
    L.Pairwise (fun a b => a.componentorder < b.componentorder) := by
  have hne : L.Pairwise (fun a b => a.componentorder ≠ b.componentorder) :=
    List.pairwise_map.mp hnd
  exact (hs.and hne).imp (fun h => lt_of_le_of_ne h.1 h.2)

/-- Two permutations of each other that are both strictly ascending by
`componentorder` coincide. -/
theorem eq_of_perm_of_strict {A B : List Row} (hperm : List.Perm A B)
    (hA : A.Pairwise (fun a b => a.componentorder < b.componentorder))
    (hB : B.Pairwise (fun a b => a.componentorder < b.componentorder)) :
    A = B := by
  haveI : IsAntisymm Row (fun a b => a.componentorder < b.componentorder) :=
    ⟨fun _ _ h1 h2 => absurd h2 (Nat.lt_asymm h1)⟩
  exact List.eq_of_perm_of_sorted hperm hA hB

/-! ### Probability rounding and normalization

Python floats are modelled as exact rationals.  `roundHalfEven` models
Python's `round` (banker's rounding); `round3`/`round6` model
`round(x, 3)` / `round(x, 6)`.  `normalizeProbs` is the normalization
block of `analyze_with_retry`: divide by the total when it is positive,
otherwise set only the neutral probability to 1.0. -/

def roundHalfEven (q : ℚ) : ℤ :=
  if q - ⌊q⌋ < 1/2 then ⌊q⌋
  else if 1/2 < q - ⌊q⌋ then ⌊q⌋ + 1
  else if Even ⌊q⌋ then ⌊q⌋ else ⌊q⌋ + 1

def round3 (q : ℚ) : ℚ := (roundHalfEven (q * 1000) : ℚ) / 1000

def round6 (q : ℚ) : ℚ := (roundHalfEven (q * 1000000) : ℚ) / 1000000

def normalizeProbs (pos neg neu : ℚ) : ℚ × ℚ × ℚ :=
  if 0 < pos + neg + neu then
    (pos / (pos + neg + neu), neg / (pos + neg + neu), neu / (pos + neg + neu))
  else
    (pos, neg, 1)

/-- The probability triple actually returned: normalized, then each
component rounded to three decimal places. -/
def reportedProbs (pos neg neu : ℚ) : ℚ × ℚ × ℚ :=
  (round3 (normalizeProbs pos neg neu).1,
   round3 (normalizeProbs pos neg neu).2.1,
   round3 (normalizeProbs pos neg neu).2.2)

theorem roundHalfEven_sub_abs_le (q : ℚ) : |(roundHalfEven q : ℚ) - q| ≤ 1/2 := by
  have hf1 : (⌊q⌋ : ℚ) ≤ q := Int.floor_le q
  have hf2 : q < ⌊q⌋ + 1 := Int.lt_floor_add_one q
  unfold roundHalfEven
  split_ifs with h1 h2 h3
  · rw [abs_le]; constructor <;> linarith
  · rw [abs_le]; push_cast; constructor <;> linarith
  · rw [abs_le]; constructor <;> linarith
  · rw [abs_le]; push_cast; constructor <;> linarith

theorem roundHalfEven_nonneg {q : ℚ} (h : 0 ≤ q) : 0 ≤ roundHalfEven q := by
  have hf : 0 ≤ ⌊q⌋ := Int.floor_nonneg.mpr h
  unfold roundHalfEven
  split_ifs <;> omega

theorem round3_nonneg {q : ℚ} (h : 0 ≤ q) : 0 ≤ round3 q := by
  unfold round3
  have := roundHalfEven_nonneg (mul_nonneg h (by norm_num : (0:ℚ) ≤ 1000))
  positivity

theorem round3_sub_abs_le (q : ℚ) : |round3 q - q| ≤ 1/2000 := by
  have h := roundHalfEven_sub_abs_le (q * 1000)
  rw [abs_le] at h
  rw [abs_le]
  unfold round3
  constructor <;> linarith [h.1, h.2]

theorem roundHalfEven_intCast (n : ℤ) : roundHalfEven (n : ℚ) = n := by
  unfold roundHalfEven
  rw [Int.floor_intCast]
  simp

theorem round3_zero : round3 0 = 0 := by
  have : roundHalfEven ((0:ℚ) * 1000) = 0 := by
    rw [show ((0:ℚ) * 1000) = ((0:ℤ) : ℚ) by norm_num, roundHalfEven_intCast]
  rw [round3, this]
  norm_num

theorem round3_one : round3 1 = 1 := by
  have : roundHalfEven ((1:ℚ) * 1000) = 1000 := by
    rw [show ((1:ℚ) * 1000) = ((1000:ℤ) : ℚ) by norm_num, roundHalfEven_intCast]
  rw [round3, this]
  norm_num

theorem round3_third : round3 (1/3) = 333/1000 := by
  have hfl : ⌊(1/3 : ℚ) * 1000⌋ = 333 := by
    rw [Int.floor_eq_iff]
    norm_num
  have : roundHalfEven ((1/3 : ℚ) * 1000) = 333 := by
    unfold roundHalfEven
    rw [hfl]
    norm_num
  rw [round3, this]
  norm_num

/-! ### Response parsing (`analyze_with_retry`, parse/validate block)

A JSON body that fails to parse is `result = {}`: every field absent.
`ParsedResponse` models the parsed dict restricted to the expected
fields, each `Option`-valued; `none` is an absent field.  `lowerString`
models Python `str.lower()` character by character. -/

def lowerString (s : String) : String := ⟨s.data.map Char.toLower⟩

def validSentiments : List String := ["positive", "negative", "neutral"]

structure ParsedResponse where
  sentiment : Option String
  positive_prob : Option ℚ
  negative_prob : Option ℚ
  neutral_prob : Option ℚ
  reasoning : Option String
deriving DecidableEq

/-- The all-absent parse result produced by an unparsable body. -/
def unparsableResponse : ParsedResponse := ⟨none, none, none, none, none⟩

structure SentimentOutput where
  sentiment : String
  positive_prob : ℚ
  negative_prob : ℚ
  neutral_prob : ℚ
  reasoning : String
deriving DecidableEq

/-- The parse/validate/normalize block:
`sentiment = result.get('sentiment', 'neutral').lower()`, coerced to
`'neutral'` when not one of the three valid values; probabilities
defaulted to `0.0` per field, normalized, rounded to 3 decimals;
`reasoning = result.get('reasoning', '')`. -/
def parseResponse (r : ParsedResponse) : SentimentOutput where
  sentiment :=
    if lowerString (r.sentiment.getD "neutral") ∈ validSentiments then
      lowerString (r.sentiment.getD "neutral")
    else "neutral"
  positive_prob :=
    (reportedProbs (r.positive_prob.getD 0) (r.negative_prob.getD 0)
      (r.neutral_prob.getD 0)).1
  negative_prob :=
    (reportedProbs (r.positive_prob.getD 0) (r.negative_prob.getD 0)
      (r.neutral_prob.getD 0)).2.1
  neutral_prob :=
    (reportedProbs (r.positive_prob.getD 0) (r.negative_prob.getD 0)
      (r.neutral_prob.getD 0)).2.2
  reasoning := r.reasoning.getD ""

/-! ### Pricing model (`src/config/pricing.py`) -/

structure ModelPricing where
  input_price : ℚ
  output_price : ℚ
  cached_input_price : ℚ
  training_price : ℚ
deriving DecidableEq

structure CostBreakdown where
  input_cost : ℚ
  cached_cost : ℚ
  output_cost : ℚ
  total_cost : ℚ
deriving DecidableEq

/-- `ModelPricing.calculate_cost`: the regularly-priced input token count
is clamped at zero (`regular_input = max(0, input_tokens - cached_tokens)`),
then each bucket is priced per million tokens. -/
def ModelPricing.calculate_cost (p : ModelPricing)
    (input_tokens output_tokens cached_tokens : ℤ) : CostBreakdown :=
  { input_cost := ((max 0 (input_tokens - cached_tokens) : ℤ) : ℚ) / 1000000 * p.input_price
    cached_cost := ((cached_tokens : ℤ) : ℚ) / 1000000 * p.cached_input_price
    output_cost := ((output_tokens : ℤ) : ℚ) / 1000000 * p.output_price
    total_cost :=
      ((max 0 (input_tokens - cached_tokens) : ℤ) : ℚ) / 1000000 * p.input_price
      + ((cached_tokens : ℤ) : ℚ) / 1000000 * p.cached_input_price
      + ((output_tokens : ℤ) : ℚ) / 1000000 * p.output_price }

/-- The `'gpt-4.1'` entry of `MODEL_PRICING`
(input 3.00, cached 0.75, output 12.00, training 25.00 per 1M tokens). -/
def gpt41Pricing : ModelPricing :=
  { input_price := 3, output_price := 12, cached_input_price := 0.75,
    training_price := 25 }

/-- The `MODEL_PRICING` dict as a partial lookup on the model key. -/
def MODEL_PRICING (key : String) : Option ModelPricing :=
  if key = "gpt-4.1" then some gpt41Pricing
  else if key = "gpt-4.1-mini" then
    some { input_price := 0.80, output_price := 3.20, cached_input_price := 0.20,
           training_price := 5 }
  else if key = "gpt-4o" then
    some { input_price := 2.50, output_price := 10, cached_input_price := 1.25,
           training_price := 0 }
  else if key = "gpt-4o-mini" then
    some { input_price := 0.15, output_price := 0.60, cached_input_price := 0.075,
           training_price := 0 }
  else none

/-- `get_model_pricing`: lowercase the model name, look it up, fall back
to the `'gpt-4.1'` entry when unknown. -/
def get_model_pricing (model_name : String) : ModelPricing :=
  (MODEL_PRICING (lowerString model_name)).getD gpt41Pricing

/-! ### Retry loop of `ProductionSentimentAnalyzer.analyze_with_retry`

`endpoint attempt` is the outcome of the attempt-numbered call to the
completion endpoint: a parsed response with token usage, an
`asyncio.TimeoutError`, or another exception carrying its message.  The
trace records the returned result dict, the number of endpoint calls
made, and the sequence of backoff sleeps (in seconds). -/

inductive AttemptOutcome where
  | ok (parsed : ParsedResponse) (inputTokens outputTokens : ℕ)
  | timeout
  | failure (msg : String)
deriving DecidableEq

structure AnalysisResult where
  sentiment : String
  positive_prob : ℚ
  negative_prob : ℚ
  neutral_prob : ℚ
  reasoning : String
  input_tokens : ℕ
  output_tokens : ℕ
  total_tokens : ℕ
  cost : ℚ
  success : Bool
  attempts : ℕ
deriving DecidableEq

/-- `ProductionSentimentAnalyzer._error_result`. -/
def errorResult (error_msg : String) (attempts : ℕ) : AnalysisResult :=
  { sentiment := "neutral", positive_prob := 0, negative_prob := 0,
    neutral_prob := 1, reasoning := "Error: " ++ error_msg,
    input_tokens := 0, output_tokens := 0, total_tokens := 0,
    cost := 0, success := false, attempts := attempts }

/-- The result dict returned on a successful attempt. -/
def successResult (pricing : ModelPricing) (parsed : ParsedResponse)
    (inputTokens outputTokens attempt : ℕ) : AnalysisResult :=
  { sentiment := (parseResponse parsed).sentiment
    positive_prob := (parseResponse parsed).positive_prob
    negative_prob := (parseResponse parsed).negative_prob
    neutral_prob := (parseResponse parsed).neutral_prob
    reasoning := (parseResponse parsed).reasoning
    input_tokens := inputTokens
    output_tokens := outputTokens
    total_tokens := inputTokens + outputTokens
    cost := round6 (pricing.calculate_cost inputTokens outputTokens 0).total_cost
    success := true
    attempts := attempt }

structure RetryTrace where
  result : AnalysisResult
  calls : ℕ
  sleeps : List ℕ
deriving DecidableEq

/-- The loop `for attempt in range(1, max_retries + 1)`, unrolled on the
number `k` of remaining iterations.  On a timeout or exception at an
attempt below the maximum it sleeps `2 ** attempt` seconds and retries;
at the last attempt it returns the synthetic error result.  The `k = 0`
base case is the `return self._error_result('Max retries exceeded', ...)`
after the loop (reached only when `max_retries = 0`). -/
def retryGo (pricing : ModelPricing) (endpoint : ℕ → AttemptOutcome)
    (maxRetries : ℕ) : ℕ → ℕ → ℕ → List ℕ → RetryTrace
  | 0, _, calls, sleeps =>
    ⟨errorResult "Max retries exceeded" maxRetries, calls, sleeps⟩
  | k + 1, attempt, calls, sleeps =>
    match endpoint attempt with
    | .ok parsed it ot =>
      ⟨successResult pricing parsed it ot attempt, calls + 1, sleeps⟩
    | .timeout =>
      if attempt < maxRetries then
        retryGo pricing endpoint maxRetries k (attempt + 1) (calls + 1)
          (sleeps ++ [2 ^ attempt])
      else
        ⟨errorResult ("Timeout after " ++ toString maxRetries ++ " attempts")
          attempt, calls + 1, sleeps⟩
    | .failure msg =>
      if attempt < maxRetries then
        retryGo pricing endpoint maxRetries k (attempt + 1) (calls + 1)
          (sleeps ++ [2 ^ attempt])
      else
        ⟨errorResult msg attempt, calls + 1, sleeps⟩

/-- `analyze_with_retry`, observed through its endpoint interactions. -/
def analyzeWithRetry (pricing : ModelPricing) (endpoint : ℕ → AttemptOutcome)
    (maxRetries : ℕ) : RetryTrace :=
  retryGo pricing endpoint maxRetries maxRetries 1 0 []

theorem retryGo_all_timeout (pricing : ModelPricing)
    (endpoint : ℕ → AttemptOutcome) (maxRetries : ℕ)
    (h : ∀ n, endpoint n = .timeout) :
    ∀ (k attempt calls : ℕ) (sleeps : List ℕ),
      1 ≤ k → attempt + k = maxRetries + 1 →
      retryGo pricing endpoint maxRetries k attempt calls sleeps =
        ⟨errorResult ("Timeout after " ++ toString maxRetries ++ " attempts")
            maxRetries,
          calls + k, sleeps ++ (List.range' attempt (k - 1)).map (2 ^ ·)⟩ := by
  intro k
  induction k with
  | zero => intro _ _ _ hk _; omega
  | succ k' ih =>
    intro attempt calls sleeps _ hsum
    rw [retryGo, h attempt]
    by_cases hlt : attempt < maxRetries
    · have hk' : 1 ≤ k' := by omega
      rw [if_pos hlt, ih (attempt + 1) (calls + 1) (sleeps ++ [2 ^ attempt]) hk'
        (by omega)]
      have hrange : List.range' attempt (k' - 1 + 1) =
          attempt :: List.range' (attempt + 1) (k' - 1) := List.range'_succ _ _ _
      have hk'' : k' - 1 + 1 = k' := by omega
      rw [hk''] at hrange
      have : k' + 1 - 1 = k' := by omega
      rw [this, hrange]
      simp [List.append_assoc]
      omega
    · have hmax : attempt = maxRetries := by omega
      have hk0 : k' = 0 := by omega
      rw [if_neg hlt, hmax, hk0]
      simp

/-! ### Further helper lemmas for the claim theorems -/

theorem exists_row_of_multiVersion {l : List Row} {e : String}
    (h : isMultiVersion l e) : ∃ r ∈ l, eventId r = e := by
  have hpos : 0 < (tidsOf l e).card := lt_of_lt_of_le (by norm_num) h
  obtain ⟨t, ht⟩ := Finset.card_pos.mp hpos
  simp only [tidsOf, List.mem_toFinset, List.mem_map] at ht
  obtain ⟨r, hr, -⟩ := ht
  exact ⟨r, (mem_eventRows.mp hr).1, (mem_eventRows.mp hr).2⟩

theorem keyTids_subset_tidsOf (l : List Row) (k : ℕ × String × String) :
    keyTids l k ⊆ tidsOf l (strOfKey k) := by
  intro t ht
  simp only [keyTids, List.mem_toFinset, List.mem_map] at ht
  obtain ⟨y, hy, rfl⟩ := ht
  have hy' := mem_keyRows.mp hy
  simp only [tidsOf, List.mem_toFinset, List.mem_map]
  refine ⟨y, mem_eventRows.mpr ⟨hy'.1, ?_⟩, rfl⟩
  rw [eventId_eq_strOfKey, hy'.2]

/-! ### Claim theorems -/

/-- C4: Stage 1 is idempotent: applying the within-transcript
deduplication (keep the first occurrence per distinct
`(transcript_id, text)` pair, in input order) to its own output returns
that output unchanged, and the output contains no duplicate
`(transcript_id, text)` pairs. -/
theorem c4_stage1_idempotent (l : List Row) :
    stage1 (stage1 l) = stage1 l ∧
    ((stage1 l).map (fun r => (r.transcriptid, r.componenttext))).Nodup :=
  ⟨dedupBy_idem l, dedupBy_key_nodup l⟩

/-- C1 (amended): after the Stage-2 merge, and still after Stage 3, every
event key present in the output maps to exactly one `transcript_id`
(unconditionally); and, provided distinct event keys do not collide under
the code's `companyid|headline|date` string join, every row of a
multi-version event key carries the `transcript_id` of the first version
encountered for that key. -/
theorem c1_single_transcript_per_event (l : List Row) (multiIds : List String)
    (hm : ∀ e, e ∈ multiIds ↔ isMultiVersion l e) :
    (∀ k, keyRows (stage2 l multiIds) k ≠ [] →
      (keyTids (stage2 l multiIds) k).card = 1)
    ∧ (∀ k, keyRows (stage3 (stage2 l multiIds)) k ≠ [] →
      (keyTids (stage3 (stage2 l multiIds)) k).card = 1)
    ∧ (eventKeySeparated l →
      ∀ x ∈ stage3 (stage2 l multiIds), isMultiKey l (tripleOf x) →
        x.transcriptid = firstKeyTid l (tripleOf x)) := by
  have hm' : ∀ e ∈ multiIds, isMultiVersion l e := fun e he => (hm e).mp he
  have hconst2 : ∀ x ∈ stage2 l multiIds, ∀ y ∈ stage2 l multiIds,
      eventId x = eventId y → x.transcriptid = y.transcriptid :=
    fun x hx y hy hxy => stage2_tid_const hm' hx hy hxy
  have hsub := (stage3_sublist (stage2 l multiIds)).subset
  refine ⟨fun k => keyTids_card_one_of_const hconst2,
    fun k => keyTids_card_one_of_const
      (fun x hx y hy hxy => hconst2 x (hsub hx) y (hsub hy) hxy), ?_⟩
  intro hsep x hx hmk
  have hx2 : x ∈ stage2 l multiIds := hsub hx
  rcases mem_stage2.mp hx2 with ⟨hxl, hxc⟩ | ⟨e, he, hxm⟩
  · exfalso
    have h1 : (keyTids l (tripleOf x)).card ≤
        (tidsOf l (strOfKey (tripleOf x))).card :=
      Finset.card_le_card (keyTids_subset_tidsOf l (tripleOf x))
    rw [← eventId_eq_strOfKey, hxc] at h1
    unfold isMultiKey at hmk
    omega
  · obtain ⟨w, hw, hwk⟩ := exists_row_of_multiKey hmk
    have he' : e = strOfKey (tripleOf x) := by
      rw [← eventId_of_mem_mergeEvent hxm, eventId_eq_strOfKey]
    have hrows : eventRows l (strOfKey (tripleOf x)) = keyRows l (tripleOf x) :=
      eventRows_eq_keyRows hsep hw hwk
    rw [tid_of_mem_mergeEvent hxm, he']
    unfold firstTidStr firstKeyTid
    rw [hrows]

/-- C1 counterexample rows: two distinct event keys, `(1, "a|b", "c")` and
`(1, "a", "b|c")`, collide to the string event id `"1|a|b|c"`. -/
def c1exRows : List Row :=
  [⟨1, 5, "a|b", "c", 0, "T", "Executives", "Presenter Speech", 1⟩,
   ⟨1, 2, "a", "b|c", 0, "U", "Executives", "Presenter Speech", 1⟩,
   ⟨1, 3, "a", "b|c", 1, "V", "Executives", "Presenter Speech", 1⟩]

/-- C1 counterexample: the claim's final clause fails on the code.  On
`c1exRows` the string event id `"1|a|b|c"` is the (only) multi-version
group pandas computes, so Stage 2 merges all three rows and reassigns
them the unified transcript id `5`.  The event key `(1, "a", "b|c")` is
itself multi-version (versions 2 and 3, first version 2), yet after
Stage 2/Stage 3 its rows carry transcript id `5` — the id of a row of a
different event key — not the id of the first version encountered for
that event key, as the claim states. -/
theorem c1_counterexample :
    isMultiKey c1exRows (1, "a", "b|c")
    ∧ firstKeyTid c1exRows (1, "a", "b|c") = 2
    ∧ (keyRows (stage3 (stage2 c1exRows ["1|a|b|c"])) (1, "a", "b|c")).map
        (·.transcriptid) = [5, 5]
    ∧ isMultiVersion c1exRows "1|a|b|c"
    ∧ c1exRows.map eventId = ["1|a|b|c", "1|a|b|c", "1|a|b|c"] := by
  decide

/-- C1 witness rows: the spec's own scenario — two versions `tid=1:[A,B]`
and `tid=2:[B,C]` of one event key. -/
def c1wRows : List Row :=
  [⟨1, 1, "Q1", "2024-01-01", 0, "A", "Executives", "Presenter Speech", 1⟩,
   ⟨1, 1, "Q1", "2024-01-01", 1, "B", "Executives", "Presenter Speech", 1⟩,
   ⟨1, 2, "Q1", "2024-01-01", 0, "B", "Executives", "Presenter Speech", 1⟩,
   ⟨1, 2, "Q1", "2024-01-01", 1, "C", "Executives", "Presenter Speech", 1⟩]

/-- C1 witness: the amended theorem applied to the spec's two-version
scenario; the merge yields three rows with texts `A, B, C` under the
single unified transcript id `1`. -/
theorem c1_witness :
    (∀ e, e ∈ ["1|Q1|2024-01-01"] ↔ isMultiVersion c1wRows e)
    ∧ (stage2 c1wRows ["1|Q1|2024-01-01"]).map (·.transcriptid) = [1, 1, 1]
    ∧ (stage2 c1wRows ["1|Q1|2024-01-01"]).map (·.componenttext) = ["A", "B", "C"]
    ∧ ((∀ k, keyRows (stage2 c1wRows ["1|Q1|2024-01-01"]) k ≠ [] →
        (keyTids (stage2 c1wRows ["1|Q1|2024-01-01"]) k).card = 1)
      ∧ (∀ k, keyRows (stage3 (stage2 c1wRows ["1|Q1|2024-01-01"])) k ≠ [] →
        (keyTids (stage3 (stage2 c1wRows ["1|Q1|2024-01-01"])) k).card = 1)
      ∧ (eventKeySeparated c1wRows →
        ∀ x ∈ stage3 (stage2 c1wRows ["1|Q1|2024-01-01"]),
          isMultiKey c1wRows (tripleOf x) →
            x.transcriptid = firstKeyTid c1wRows (tripleOf x))) := by
  have hall : ∀ r ∈ c1wRows, eventId r = "1|Q1|2024-01-01" := by decide
  have hm : ∀ e, e ∈ ["1|Q1|2024-01-01"] ↔ isMultiVersion c1wRows e := by
    intro e
    constructor
    · intro he
      have : e = "1|Q1|2024-01-01" := by simpa using he
      subst this
      decide
    · intro hmv
      obtain ⟨r, hr, hre⟩ := exists_row_of_multiVersion hmv
      rw [← hre, hall r hr]
      exact List.mem_singleton_self _
  exact ⟨hm, by decide, by decide,
    c1_single_transcript_per_event c1wRows ["1|Q1|2024-01-01"] hm⟩

/-- C2 (amended): the final script section recomputes the event-id to
transcript-id mapping and warns exactly when some event key still maps
to at least two transcript ids; but it does not fail: the cleaned table
is saved unchanged whether or not the check fires.  Moreover the check
can never fire on actual pipeline output: the verification of
`stage3 (stage2 ...)` always passes. -/
theorem c2_verification_amended (t l : List Row) (ids : List String)
    (hm : ∀ e ∈ ids, isMultiVersion l e) :
    ((verifyAndSave t).warned = true ↔
      ∃ r ∈ t, 2 ≤ (tidsOf t (eventId r)).card)
    ∧ (verifyAndSave t).saved = some t
    ∧ (verifyAndSave (stage3 (stage2 l ids))).warned = false := by
  refine ⟨by simp [verifyAndSave, hasMergeDefect, List.any_eq_true], rfl, ?_⟩
  have hsub := (stage3_sublist (stage2 l ids)).subset
  have hconst : ∀ x ∈ stage3 (stage2 l ids), ∀ y ∈ stage3 (stage2 l ids),
      eventId x = eventId y → x.transcriptid = y.transcriptid :=
    fun x hx y hy hxy => stage2_tid_const hm (hsub hx) (hsub hy) hxy
  simp only [verifyAndSave, hasMergeDefect, List.any_eq_false, decide_eq_true_eq]
  intro r hr
  have hle : (tidsOf (stage3 (stage2 l ids)) (eventId r)).card ≤ 1 := by
    apply Finset.card_le_one.mpr
    intro a ha b hb
    simp only [tidsOf, List.mem_toFinset, List.mem_map] at ha hb
    obtain ⟨x, hx, rfl⟩ := ha
    obtain ⟨y, hy, rfl⟩ := hb
    have hx' := mem_eventRows.mp hx
    have hy' := mem_eventRows.mp hy
    exact hconst x hx'.1 y hy'.1 (hx'.2.trans hy'.2.symm)
  omega

/-- C2 counterexample rows: one event key recorded under two transcript
ids — a table on which the post-merge mapping is not 1:1. -/
def c2exRows : List Row :=
  [⟨1, 1, "h", "d", 0, "A", "Executives", "Presenter Speech", 1⟩,
   ⟨1, 2, "h", "d", 1, "B", "Executives", "Presenter Speech", 1⟩]

/-- C2 counterexample: the claim says a non-1:1 mapping makes the
pipeline fail loudly rather than continue.  On a violating table the
verification pass does detect the defect (`warned = true`), but the run
does not fail: the script unconditionally pickles the table
(`saved = some c2exRows`, identical to the non-defective case), i.e. it
warns and continues. -/
theorem c2_counterexample :
    (verifyAndSave c2exRows).warned = true
    ∧ (verifyAndSave c2exRows).saved = some c2exRows := by
  decide

/-- C2 witness: the amended theorem applied to the defective two-row
table (and to the empty pipeline input). -/
theorem c2_witness :
    (∀ e ∈ ([] : List String), isMultiVersion ([] : List Row) e)
    ∧ (((verifyAndSave c2exRows).warned = true ↔
        ∃ r ∈ c2exRows, 2 ≤ (tidsOf c2exRows (eventId r)).card)
      ∧ (verifyAndSave c2exRows).saved = some c2exRows
      ∧ (verifyAndSave (stage3 (stage2 ([] : List Row) ([] : List String)))).warned
          = false) :=
  ⟨by simp, c2_verification_amended c2exRows [] [] (by simp)⟩

/-- C3 (amended): provided distinct event keys do not collide under the
code's `companyid|headline|date` string join, Stage 2 preserves content
for every multi-version event key: its output rows are exactly the
first-occurrence text-dedup of its input rows (so the set of distinct
texts is the union over all versions), each surviving row reassigned the
unified transcript id of the key's first version. -/
theorem c3_content_preservation (l : List Row) (multiIds : List String)
    (hm : ∀ e, e ∈ multiIds ↔ isMultiVersion l e) (hnd : multiIds.Nodup)
    (hsep : eventKeySeparated l) (k : ℕ × String × String)
    (hk : isMultiKey l k) :
    (∀ t, (∃ r ∈ keyRows (stage2 l multiIds) k, r.componenttext = t) ↔
      (∃ r ∈ keyRows l k, r.componenttext = t))
    ∧ keyRows (stage2 l multiIds) k =
        (dedupBy (·.componenttext) (keyRows l k)).map
          (fun r => { r with transcriptid := firstKeyTid l k }) := by
  have hchar := stage2_keyRows_of_multi hm hnd hsep hk
  refine ⟨?_, hchar⟩
  intro t
  rw [hchar]
  constructor
  · rintro ⟨x, hx, rfl⟩
    simp only [List.mem_map] at hx
    obtain ⟨y, hy, rfl⟩ := hx
    exact ⟨y, mem_of_mem_dedupBy hy, rfl⟩
  · rintro ⟨r, hr, rfl⟩
    have hmem : r.componenttext ∈ (keyRows l k).map (·.componenttext) :=
      List.mem_map_of_mem _ hr
    rw [← dedupBy_key_mem] at hmem
    simp only [List.mem_map] at hmem
    obtain ⟨y, hy, hty⟩ := hmem
    exact ⟨{ y with transcriptid := firstKeyTid l k },
      List.mem_map_of_mem _ hy, hty⟩

/-- C3 counterexample rows: event keys `(1, "a|b", "c")` and
`(1, "a", "b|c")` collide to the string id `"1|a|b|c"`; the text `"T"`
occurs under both keys. -/
def c3exRows : List Row :=
  [⟨1, 1, "a|b", "c", 0, "T", "Executives", "Presenter Speech", 1⟩,
   ⟨1, 2, "a", "b|c", 0, "T", "Executives", "Presenter Speech", 1⟩,
   ⟨1, 3, "a", "b|c", 1, "U", "Executives", "Presenter Speech", 1⟩]

/-- C3 counterexample: the claim fails on the code.  The event key
`(1, "a", "b|c")` is multi-version with input texts `{"T", "U"}`, but
Stage 2 deduplicates texts across the whole colliding string group
`"1|a|b|c"`, so the `"T"` row surviving belongs to the other key and the
merged output of `(1, "a", "b|c")` retains only `{"U"}` — the set of
distinct texts is not preserved for that event key. -/
theorem c3_counterexample :
    isMultiKey c3exRows (1, "a", "b|c")
    ∧ (keyRows c3exRows (1, "a", "b|c")).map (·.componenttext) = ["T", "U"]
    ∧ (keyRows (stage2 c3exRows ["1|a|b|c"]) (1, "a", "b|c")).map
        (·.componenttext) = ["U"]
    ∧ isMultiVersion c3exRows "1|a|b|c"
    ∧ c3exRows.map eventId = ["1|a|b|c", "1|a|b|c", "1|a|b|c"] := by
  decide

/-- C3 witness rows: the spec's two-version scenario again, as a fresh
table for this claim. -/
def c3wRows : List Row :=
  [⟨1, 1, "Q1", "2024-01-01", 0, "A", "Executives", "Presenter Speech", 1⟩,
   ⟨1, 1, "Q1", "2024-01-01", 1, "B", "Executives", "Presenter Speech", 1⟩,
   ⟨1, 2, "Q1", "2024-01-01", 0, "B", "Executives", "Presenter Speech", 1⟩,
   ⟨1, 2, "Q1", "2024-01-01", 1, "C", "Executives", "Presenter Speech", 1⟩]

/-- C3 witness: the amended theorem applied to the spec's two-version
scenario, whose merged texts are exactly `A, B, C`. -/
theorem c3_witness :
    (∀ e, e ∈ ["1|Q1|2024-01-01"] ↔ isMultiVersion c3wRows e)
    ∧ (["1|Q1|2024-01-01"] : List String).Nodup
    ∧ eventKeySeparated c3wRows
    ∧ isMultiKey c3wRows (1, "Q1", "2024-01-01")
    ∧ (keyRows (stage2 c3wRows ["1|Q1|2024-01-01"]) (1, "Q1", "2024-01-01")).map
        (·.componenttext) = ["A", "B", "C"]
    ∧ ((∀ t, (∃ r ∈ keyRows (stage2 c3wRows ["1|Q1|2024-01-01"])
          (1, "Q1", "2024-01-01"), r.componenttext = t) ↔
        (∃ r ∈ keyRows c3wRows (1, "Q1", "2024-01-01"), r.componenttext = t))
      ∧ keyRows (stage2 c3wRows ["1|Q1|2024-01-01"]) (1, "Q1", "2024-01-01") =
          (dedupBy (·.componenttext) (keyRows c3wRows (1, "Q1", "2024-01-01"))).map
            (fun r => { r with
              transcriptid := firstKeyTid c3wRows (1, "Q1", "2024-01-01") })) := by
  have hall : ∀ r ∈ c3wRows, eventId r = "1|Q1|2024-01-01" := by decide
  have hm : ∀ e, e ∈ ["1|Q1|2024-01-01"] ↔ isMultiVersion c3wRows e := by
    intro e
    constructor
    · intro he
      have : e = "1|Q1|2024-01-01" := by simpa using he
      subst this
      decide
    · intro hmv
      obtain ⟨r, hr, hre⟩ := exists_row_of_multiVersion hmv
      rw [← hre, hall r hr]
      exact List.mem_singleton_self _
  exact ⟨hm, by decide, by decide, by decide, by decide,
    c3_content_preservation c3wRows ["1|Q1|2024-01-01"] hm (by decide)
      (by decide) (1, "Q1", "2024-01-01") (by decide)⟩

/-- C5: for every transcript group whose `componentorder`s are pairwise
distinct, the aggregated document's text equals the component texts
joined with a double-newline separator in strictly ascending
`componentorder` (stated as: equality with the join of any strictly
ascending arrangement of the group), independent of the order in which
the input rows arrive. -/
theorem c5_aggregation_order (l l2 : List Row) (tid : ℕ) (sorted : List Row)
    (hnd : ((groupRows l tid).map (·.componentorder)).Nodup)
    (hperm : List.Perm l l2)
    (hs : List.Perm sorted (groupRows l tid))
    (hasc : sorted.Pairwise (fun a b => a.componentorder < b.componentorder)) :
    presentationText l tid =
      String.intercalate "\n\n" (sorted.map (·.componenttext))
    ∧ presentationText l2 tid = presentationText l tid := by
  have hGperm := eventGroup_perm l tid
  have hndE : ((eventGroup l tid).map (·.componentorder)).Nodup :=
    ((hGperm.map (·.componentorder)).nodup_iff).mpr hnd
  have hEasc := pairwise_lt_of_le_nodup (eventGroup_sorted l tid) hndE
  have h1 : sorted = eventGroup l tid :=
    eq_of_perm_of_strict (hs.trans hGperm.symm) hasc hEasc
  constructor
  · rw [presentationText, h1]
  · have hG2 : List.Perm (groupRows l2 tid) (groupRows l tid) :=
      ((hperm.filter _).filter _).symm
    have hGperm2 := eventGroup_perm l2 tid
    have hnd2 : ((eventGroup l2 tid).map (·.componentorder)).Nodup :=
      (((hGperm2.trans hG2).map (·.componentorder)).nodup_iff).mpr hnd
    have hEasc2 := pairwise_lt_of_le_nodup (eventGroup_sorted l2 tid) hnd2
    have h2 : eventGroup l2 tid = eventGroup l tid :=
      eq_of_perm_of_strict ((hGperm2.trans hG2).trans hGperm.symm) hEasc2 hEasc
    rw [presentationText, presentationText, h2]

/-- C5 witness rows: one transcript with two speeches arriving out of
order. -/
def c5wRows : List Row :=
  [⟨1, 7, "Q1", "2024-01-01", 2, "B", "Executives", "Presenter Speech", 1⟩,
   ⟨1, 7, "Q1", "2024-01-01", 1, "A", "Executives", "Presenter Speech", 1⟩]

/-- C5 witness: the theorem applied to a concrete out-of-order group; the
aggregated text is `"A\n\nB"` for both arrival orders. -/
theorem c5_witness :
    ((groupRows c5wRows 7).map (·.componentorder)).Nodup
    ∧ List.Perm c5wRows c5wRows.reverse
    ∧ List.Perm
        [(⟨1, 7, "Q1", "2024-01-01", 1, "A", "Executives", "Presenter Speech", 1⟩ : Row),
         ⟨1, 7, "Q1", "2024-01-01", 2, "B", "Executives", "Presenter Speech", 1⟩]
        (groupRows c5wRows 7)
    ∧ ([(⟨1, 7, "Q1", "2024-01-01", 1, "A", "Executives", "Presenter Speech", 1⟩ : Row),
        ⟨1, 7, "Q1", "2024-01-01", 2, "B", "Executives", "Presenter Speech", 1⟩]).Pairwise
        (fun a b => a.componentorder < b.componentorder)
    ∧ presentationText c5wRows 7 = "A\n\nB"
    ∧ (presentationText c5wRows 7 =
        String.intercalate "\n\n"
          (([(⟨1, 7, "Q1", "2024-01-01", 1, "A", "Executives", "Presenter Speech", 1⟩ : Row),
             ⟨1, 7, "Q1", "2024-01-01", 2, "B", "Executives", "Presenter Speech", 1⟩]).map
            (·.componenttext))
      ∧ presentationText c5wRows.reverse 7 = presentationText c5wRows 7) :=
  ⟨by decide, by decide, by decide, by decide, by decide,
    c5_aggregation_order c5wRows c5wRows.reverse 7 _ (by decide) (by decide)
      (by decide) (by decide)⟩

/-- C6 counterexample: the claim fails on the code at the benign parsed
values `(1, 1, 1)`.  The code normalizes to `(1/3, 1/3, 1/3)` and then
rounds each probability to three decimals, returning
`(0.333, 0.333, 0.333)`; the returned values sum to `0.999`, which is
not within `1e-6` of `1.0`. -/
theorem c6_counterexample :
    reportedProbs 1 1 1 = (333/1000, 333/1000, 333/1000)
    ∧ ¬ (|(333/1000 + 333/1000 + 333/1000 : ℚ) - 1| ≤ 1/1000000) := by
  have hn : normalizeProbs 1 1 1 = (1/3, 1/3, 1/3) := by
    unfold normalizeProbs
    norm_num
  constructor
  · unfold reportedProbs
    rw [hn]
    show (round3 (1/3), round3 (1/3), round3 (1/3)) = _
    rw [round3_third]
  · have habs : |(333/1000 + 333/1000 + 333/1000 : ℚ) - 1| = 1/1000 := by
      rw [show (333/1000 + 333/1000 + 333/1000 : ℚ) - 1 = -(1/1000) by norm_num,
        abs_neg, abs_of_nonneg (by norm_num)]
    rw [habs]
    norm_num

/-- C6 (amended): for non-negative parsed values, the pre-rounding
normalized probabilities are the proportional rescaling when the total is
positive and `(0, 0, 1)` when all three are zero; the returned values are
those rounded to three decimals, hence all non-negative with a sum within
`1.5e-3` (not `1e-6`) of `1.0`. -/
theorem c6_probability_normalization (p n u : ℚ)
    (hp : 0 ≤ p) (hn : 0 ≤ n) (hu : 0 ≤ u) :
    (0 ≤ (reportedProbs p n u).1 ∧ 0 ≤ (reportedProbs p n u).2.1 ∧
      0 ≤ (reportedProbs p n u).2.2)
    ∧ |(reportedProbs p n u).1 + (reportedProbs p n u).2.1 +
        (reportedProbs p n u).2.2 - 1| ≤ 3/2000
    ∧ (0 < p + n + u →
        normalizeProbs p n u =
          (p / (p + n + u), n / (p + n + u), u / (p + n + u)))
    ∧ (p + n + u = 0 → reportedProbs p n u = (0, 0, 1)) := by
  by_cases htot : 0 < p + n + u
  · have hnorm : normalizeProbs p n u =
        (p / (p + n + u), n / (p + n + u), u / (p + n + u)) := by
      unfold normalizeProbs
      rw [if_pos htot]
    have ht0 : p + n + u ≠ 0 := ne_of_gt htot
    have hrep : reportedProbs p n u =
        (round3 (p / (p + n + u)), round3 (n / (p + n + u)),
          round3 (u / (p + n + u))) := by
      unfold reportedProbs
      rw [hnorm]
    have hsum : p / (p + n + u) + n / (p + n + u) + u / (p + n + u) = 1 := by
      rw [div_add_div_same, div_add_div_same, div_self ht0]
    have h1 := round3_sub_abs_le (p / (p + n + u))
    have h2 := round3_sub_abs_le (n / (p + n + u))
    have h3 := round3_sub_abs_le (u / (p + n + u))
    rw [abs_le] at h1 h2 h3
    refine ⟨?_, ?_, fun _ => hnorm, fun h0 => absurd h0 (ne_of_gt htot)⟩
    · rw [hrep]
      exact ⟨round3_nonneg (div_nonneg hp htot.le),
        round3_nonneg (div_nonneg hn htot.le),
        round3_nonneg (div_nonneg hu htot.le)⟩
    · rw [hrep, abs_le]
      constructor <;> simp only [] <;> linarith [h1.1, h1.2, h2.1, h2.2, h3.1, h3.2]
  · have h0 : p + n + u = 0 :=
      le_antisymm (not_lt.mp htot) (by positivity)
    have hp0 : p = 0 := by linarith
    have hn0 : n = 0 := by linarith
    have hu0 : u = 0 := by linarith
    subst hp0; subst hn0; subst hu0
    have hnorm : normalizeProbs 0 0 0 = ((0 : ℚ), (0 : ℚ), (1 : ℚ)) := by
      unfold normalizeProbs
      norm_num
    have hrep : reportedProbs 0 0 0 = ((0 : ℚ), (0 : ℚ), (1 : ℚ)) := by
      unfold reportedProbs
      rw [hnorm]
      show (round3 0, round3 0, round3 1) = _
      rw [round3_zero, round3_one]
    refine ⟨?_, ?_, fun hc => absurd hc (by norm_num), fun _ => hrep⟩
    · rw [hrep]
      norm_num
    · rw [hrep]
      norm_num

/-- C6 witness: the amended theorem applied at the parsed values
`(1/2, 1/4, 1/4)`. -/
theorem c6_witness :
    (0 ≤ (1/2 : ℚ)) ∧ (0 ≤ (1/4 : ℚ)) ∧
    ((0 ≤ (reportedProbs (1/2) (1/4) (1/4)).1 ∧
        0 ≤ (reportedProbs (1/2) (1/4) (1/4)).2.1 ∧
        0 ≤ (reportedProbs (1/2) (1/4) (1/4)).2.2)
      ∧ |(reportedProbs (1/2) (1/4) (1/4)).1 +
          (reportedProbs (1/2) (1/4) (1/4)).2.1 +
          (reportedProbs (1/2) (1/4) (1/4)).2.2 - 1| ≤ 3/2000
      ∧ (0 < (1/2 : ℚ) + 1/4 + 1/4 →
          normalizeProbs (1/2) (1/4) (1/4) =
            ((1/2 : ℚ) / (1/2 + 1/4 + 1/4), (1/4 : ℚ) / (1/2 + 1/4 + 1/4),
              (1/4 : ℚ) / (1/2 + 1/4 + 1/4)))
      ∧ ((1/2 : ℚ) + 1/4 + 1/4 = 0 →
          reportedProbs (1/2) (1/4) (1/4) = (0, 0, 1))) :=
  ⟨by norm_num, by norm_num,
    c6_probability_normalization (1/2) (1/4) (1/4) (by norm_num) (by norm_num)
      (by norm_num)⟩

/-- C7 counterexample response: a parsable body whose `sentiment` field is
present (`"positive"`) but whose probability fields are all absent. -/
def c7exResponse : ParsedResponse := ⟨some "positive", none, none, none, none⟩

/-- C7 counterexample: the claim fails on the code.  It states that when
any expected field is absent the result defaults to
`sentiment = neutral` with probabilities `(0, 0, 1)`; but the code
defaults each absent field individually, so a response with absent
probability fields and `sentiment = "positive"` yields
`sentiment = "positive"`, not `"neutral"`. -/
theorem c7_counterexample :
    c7exResponse.positive_prob = none
    ∧ (parseResponse c7exResponse).sentiment = "positive"
    ∧ (parseResponse c7exResponse).sentiment ≠ "neutral" := by
  refine ⟨rfl, by decide, by decide⟩

/-- C7 (amended): parsing is total and applies default substitution per
field: an unparsable body (all fields absent) yields the full default
`(neutral, (0, 0, 1), "")`; each absent field is individually defaulted
(`sentiment → 'neutral'`, probabilities → `0.0`, `reasoning → ''`), so
filling the absent fields with those defaults leaves the result
unchanged; and a sentiment string whose lowercase form is not one of
positive/negative/neutral is coerced to neutral. -/
theorem c7_parse_defaults (r : ParsedResponse) (s : String)
    (hs : lowerString s ∉ validSentiments) :
    parseResponse unparsableResponse =
      { sentiment := "neutral", positive_prob := 0, negative_prob := 0,
        neutral_prob := 1, reasoning := "" }
    ∧ parseResponse r = parseResponse
        { sentiment := some (r.sentiment.getD "neutral"),
          positive_prob := some (r.positive_prob.getD 0),
          negative_prob := some (r.negative_prob.getD 0),
          neutral_prob := some (r.neutral_prob.getD 0),
          reasoning := some (r.reasoning.getD "") }
    ∧ (parseResponse { r with sentiment := some s }).sentiment = "neutral" := by
  have hrep : reportedProbs 0 0 0 = ((0 : ℚ), (0 : ℚ), (1 : ℚ)) := by
    have hnorm : normalizeProbs 0 0 0 = ((0 : ℚ), (0 : ℚ), (1 : ℚ)) := by
      unfold normalizeProbs
      norm_num
    unfold reportedProbs
    rw [hnorm]
    show (round3 0, round3 0, round3 1) = _
    rw [round3_zero, round3_one]
  refine ⟨?_, ?_, ?_⟩
  · have hl : lowerString "neutral" = "neutral" := by decide
    simp [parseResponse, unparsableResponse, hrep, hl, validSentiments]
  · simp [parseResponse, Option.getD_some]
  · simp [parseResponse, Option.getD_some, hs]

/-- C7 witness: the amended theorem applied to a response carrying an
uppercase sentiment and a mix of present and absent fields, with the
invalid sentiment string `"Bullish"`. -/
theorem c7_witness :
    lowerString "Bullish" ∉ validSentiments
    ∧ (parseResponse unparsableResponse =
        { sentiment := "neutral", positive_prob := 0, negative_prob := 0,
          neutral_prob := 1, reasoning := "" }
      ∧ parseResponse (⟨some "POSITIVE", some 2, none, some 1, none⟩ : ParsedResponse) =
          parseResponse
            { sentiment := some ((⟨some "POSITIVE", some 2, none, some 1, none⟩ :
                ParsedResponse).sentiment.getD "neutral"),
              positive_prob := some ((⟨some "POSITIVE", some 2, none, some 1, none⟩ :
                ParsedResponse).positive_prob.getD 0),
              negative_prob := some ((⟨some "POSITIVE", some 2, none, some 1, none⟩ :
                ParsedResponse).negative_prob.getD 0),
              neutral_prob := some ((⟨some "POSITIVE", some 2, none, some 1, none⟩ :
                ParsedResponse).neutral_prob.getD 0),
              reasoning := some ((⟨some "POSITIVE", some 2, none, some 1, none⟩ :
                ParsedResponse).reasoning.getD "") }
      ∧ (parseResponse { (⟨some "POSITIVE", some 2, none, some 1, none⟩ : ParsedResponse)
            with sentiment := some "Bullish" }).sentiment = "neutral") :=
  ⟨by decide,
    c7_parse_defaults (⟨some "POSITIVE", some 2, none, some 1, none⟩ : ParsedResponse)
      "Bullish" (by decide)⟩

/-- C8: against an endpoint whose every call times out, the client makes
exactly `max_retries` endpoint calls, sleeping `2 ** attempt` seconds
between consecutive attempts (`[2^1, …, 2^(max_retries-1)]`), and then
returns — without raising (the embedding is a total function) — the
synthetic error result: `sentiment = neutral`, probabilities `(0, 0, 1)`,
zero input/output/total tokens, zero cost, `success = false`,
`attempts = max_retries`, and a reasoning string containing the timeout
error. -/
theorem c8_retry_exhaustion (pricing : ModelPricing)
    (endpoint : ℕ → AttemptOutcome) (maxRetries : ℕ)
    (htimeout : ∀ n, endpoint n = AttemptOutcome.timeout)
    (hpos : 1 ≤ maxRetries) :
    (analyzeWithRetry pricing endpoint maxRetries).calls = maxRetries
    ∧ (analyzeWithRetry pricing endpoint maxRetries).sleeps =
        (List.range' 1 (maxRetries - 1)).map (2 ^ ·)
    ∧ (analyzeWithRetry pricing endpoint maxRetries).result =
        errorResult ("Timeout after " ++ toString maxRetries ++ " attempts")
          maxRetries
    ∧ (analyzeWithRetry pricing endpoint maxRetries).result.sentiment = "neutral"
    ∧ (analyzeWithRetry pricing endpoint maxRetries).result.positive_prob = 0
    ∧ (analyzeWithRetry pricing endpoint maxRetries).result.negative_prob = 0
    ∧ (analyzeWithRetry pricing endpoint maxRetries).result.neutral_prob = 1
    ∧ (analyzeWithRetry pricing endpoint maxRetries).result.input_tokens = 0
    ∧ (analyzeWithRetry pricing endpoint maxRetries).result.output_tokens = 0
    ∧ (analyzeWithRetry pricing endpoint maxRetries).result.total_tokens = 0
    ∧ (analyzeWithRetry pricing endpoint maxRetries).result.cost = 0
    ∧ (analyzeWithRetry pricing endpoint maxRetries).result.success = false
    ∧ (analyzeWithRetry pricing endpoint maxRetries).result.attempts = maxRetries
    ∧ (analyzeWithRetry pricing endpoint maxRetries).result.reasoning =
        "Error: " ++ ("Timeout after " ++ toString maxRetries ++ " attempts") := by
  have h := retryGo_all_timeout pricing endpoint maxRetries htimeout
    maxRetries 1 0 [] hpos (by omega)
  unfold analyzeWithRetry
  rw [h]
  refine ⟨by simp, by simp, rfl, rfl, rfl, rfl, rfl, rfl, rfl, rfl, rfl, rfl,
    rfl, rfl⟩

/-- C8 witness: the theorem applied with `max_retries = 3` and the
always-timing-out endpoint; the sleep sequence evaluates to `[2, 4]`. -/
theorem c8_witness :
    (∀ n : ℕ, (fun _ : ℕ => AttemptOutcome.timeout) n = AttemptOutcome.timeout)
    ∧ 1 ≤ 3
    ∧ (List.range' 1 (3 - 1)).map (2 ^ ·) = [2, 4]
    ∧ ((analyzeWithRetry gpt41Pricing (fun _ : ℕ => AttemptOutcome.timeout) 3).calls = 3
      ∧ (analyzeWithRetry gpt41Pricing (fun _ : ℕ => AttemptOutcome.timeout) 3).sleeps =
          (List.range' 1 (3 - 1)).map (2 ^ ·)
      ∧ (analyzeWithRetry gpt41Pricing (fun _ : ℕ => AttemptOutcome.timeout) 3).result =
          errorResult ("Timeout after " ++ toString 3 ++ " attempts") 3
      ∧ (analyzeWithRetry gpt41Pricing (fun _ : ℕ => AttemptOutcome.timeout) 3).result.sentiment
          = "neutral"
      ∧ (analyzeWithRetry gpt41Pricing (fun _ : ℕ => AttemptOutcome.timeout) 3).result.positive_prob
          = 0
      ∧ (analyzeWithRetry gpt41Pricing (fun _ : ℕ => AttemptOutcome.timeout) 3).result.negative_prob
          = 0
      ∧ (analyzeWithRetry gpt41Pricing (fun _ : ℕ => AttemptOutcome.timeout) 3).result.neutral_prob
          = 1
      ∧ (analyzeWithRetry gpt41Pricing (fun _ : ℕ => AttemptOutcome.timeout) 3).result.input_tokens
          = 0
      ∧ (analyzeWithRetry gpt41Pricing (fun _ : ℕ => AttemptOutcome.timeout) 3).result.output_tokens
          = 0
      ∧ (analyzeWithRetry gpt41Pricing (fun _ : ℕ => AttemptOutcome.timeout) 3).result.total_tokens
          = 0
      ∧ (analyzeWithRetry gpt41Pricing (fun _ : ℕ => AttemptOutcome.timeout) 3).result.cost = 0
      ∧ (analyzeWithRetry gpt41Pricing (fun _ : ℕ => AttemptOutcome.timeout) 3).result.success
          = false
      ∧ (analyzeWithRetry gpt41Pricing (fun _ : ℕ => AttemptOutcome.timeout) 3).result.attempts
          = 3
      ∧ (analyzeWithRetry gpt41Pricing (fun _ : ℕ => AttemptOutcome.timeout) 3).result.reasoning
          = "Error: " ++ ("Timeout after " ++ toString 3 ++ " attempts")) :=
  ⟨fun _ => rfl, by norm_num, by decide,
    c8_retry_exhaustion gpt41Pricing (fun _ : ℕ => AttemptOutcome.timeout) 3
      (fun _ => rfl) (by norm_num)⟩

/-- C9 counterexample: the claim's formula fails on the code when
`cached_tokens` exceeds `input_tokens`.  At `input = 0`, `output = 0`,
`cached = 1_000_000` with the `gpt-4.1` entry, the claimed formula gives
`input_cost = (0 − 1_000_000)/1e6 × 3.00 = −3`, but the code clamps the
regular input at zero and returns `input_cost = 0`. -/
theorem c9_counterexample :
    (gpt41Pricing.calculate_cost 0 0 1000000).input_cost = 0
    ∧ ((0 - 1000000 : ℤ) : ℚ) / 1000000 * gpt41Pricing.input_price = -3
    ∧ (gpt41Pricing.calculate_cost 0 0 1000000).input_cost ≠
        ((0 - 1000000 : ℤ) : ℚ) / 1000000 * gpt41Pricing.input_price := by
  have h1 : (gpt41Pricing.calculate_cost 0 0 1000000).input_cost = 0 := by
    unfold ModelPricing.calculate_cost
    norm_num
  have h2 : ((0 - 1000000 : ℤ) : ℚ) / 1000000 * gpt41Pricing.input_price = -3 := by
    unfold gpt41Pricing
    norm_num
  refine ⟨h1, h2, ?_⟩
  rw [h1, h2]
  norm_num

/-- C9 (amended): whenever `0 ≤ cached_tokens ≤ input_tokens` (the claim's
formula, made exact by the code's clamp), the cost breakdown is
`input_cost = (input − cached)/1e6 × input_price`,
`cached_cost = cached/1e6 × cached_price`,
`output_cost = output/1e6 × output_price`, and their sum; an unknown
model name falls back to the `gpt-4.1` pricing entry; and
`calculate_cost(1_000_000 input, 0 output, 0 cached)` for the model
priced at $3.00/1M input returns `input_cost = 3.00`. -/
theorem c9_cost_formula (name : String)
    (input_tokens output_tokens cached_tokens : ℤ)
    (hc : 0 ≤ cached_tokens) (hci : cached_tokens ≤ input_tokens) :
    ((get_model_pricing name).calculate_cost input_tokens output_tokens
        cached_tokens).input_cost =
      ((input_tokens - cached_tokens : ℤ) : ℚ) / 1000000 *
        (get_model_pricing name).input_price
    ∧ ((get_model_pricing name).calculate_cost input_tokens output_tokens
        cached_tokens).cached_cost =
      ((cached_tokens : ℤ) : ℚ) / 1000000 * (get_model_pricing name).cached_input_price
    ∧ ((get_model_pricing name).calculate_cost input_tokens output_tokens
        cached_tokens).output_cost =
      ((output_tokens : ℤ) : ℚ) / 1000000 * (get_model_pricing name).output_price
    ∧ ((get_model_pricing name).calculate_cost input_tokens output_tokens
        cached_tokens).total_cost =
      ((get_model_pricing name).calculate_cost input_tokens output_tokens
        cached_tokens).input_cost +
      ((get_model_pricing name).calculate_cost input_tokens output_tokens
        cached_tokens).cached_cost +
      ((get_model_pricing name).calculate_cost input_tokens output_tokens
        cached_tokens).output_cost
    ∧ (MODEL_PRICING (lowerString name) = none →
        get_model_pricing name = gpt41Pricing)
    ∧ (gpt41Pricing.calculate_cost 1000000 0 0).input_cost = 3 := by
  have hmax : max 0 (input_tokens - cached_tokens) = input_tokens - cached_tokens :=
    max_eq_right (sub_nonneg.mpr hci)
  refine ⟨?_, rfl, rfl, rfl, ?_, ?_⟩
  · unfold ModelPricing.calculate_cost
    rw [hmax]
  · intro h
    unfold get_model_pricing
    rw [h]
    rfl
  · unfold ModelPricing.calculate_cost gpt41Pricing
    norm_num

/-- C9 witness: the amended theorem applied to the unknown model name
`"claude-3"` (which falls back to the `gpt-4.1` entry) with
`input = 500`, `output = 100`, `cached = 200`. -/
theorem c9_witness :
    (0 : ℤ) ≤ 200 ∧ (200 : ℤ) ≤ 500
    ∧ MODEL_PRICING (lowerString "claude-3") = none
    ∧ (((get_model_pricing "claude-3").calculate_cost 500 100 200).input_cost =
        ((500 - 200 : ℤ) : ℚ) / 1000000 * (get_model_pricing "claude-3").input_price
      ∧ ((get_model_pricing "claude-3").calculate_cost 500 100 200).cached_cost =
        ((200 : ℤ) : ℚ) / 1000000 * (get_model_pricing "claude-3").cached_input_price
      ∧ ((get_model_pricing "claude-3").calculate_cost 500 100 200).output_cost =
        ((100 : ℤ) : ℚ) / 1000000 * (get_model_pricing "claude-3").output_price
      ∧ ((get_model_pricing "claude-3").calculate_cost 500 100 200).total_cost =
        ((get_model_pricing "claude-3").calculate_cost 500 100 200).input_cost +
        ((get_model_pricing "claude-3").calculate_cost 500 100 200).cached_cost +
        ((get_model_pricing "claude-3").calculate_cost 500 100 200).output_cost
      ∧ (MODEL_PRICING (lowerString "claude-3") = none →
          get_model_pricing "claude-3" = gpt41Pricing)
      ∧ (gpt41Pricing.calculate_cost 1000000 0 0).input_cost = 3) :=
  ⟨by norm_num, by norm_num, rfl,
    c9_cost_formula "claude-3" 500 100 200 (by norm_num) (by norm_num)⟩

/-- The three per-token prices of every entry `get_model_pricing` can
return are non-negative. -/
theorem get_model_pricing_nonneg (name : String) :
    0 ≤ (get_model_pricing name).input_price
    ∧ 0 ≤ (get_model_pricing name).cached_input_price
    ∧ 0 ≤ (get_model_pricing name).output_price := by
  unfold get_model_pricing MODEL_PRICING
  split_ifs <;> simp [Option.getD] <;> norm_num [gpt41Pricing]

/-- C10: `calculate_cost` clamps the regularly-priced input token count at
zero (`regular_input = max(0, input_tokens − cached_tokens)`), so for all
non-negative token counts — including `cached_tokens > input_tokens` —
every component of the returned breakdown is non-negative, for every
model name's pricing entry. -/
theorem c10_cost_nonneg (name : String)
    (input_tokens output_tokens cached_tokens : ℤ)
    (hi : 0 ≤ input_tokens) (ho : 0 ≤ output_tokens) (hc : 0 ≤ cached_tokens) :
    ((get_model_pricing name).calculate_cost input_tokens output_tokens
        cached_tokens).input_cost =
      ((max 0 (input_tokens - cached_tokens) : ℤ) : ℚ) / 1000000 *
        (get_model_pricing name).input_price
    ∧ 0 ≤ ((get_model_pricing name).calculate_cost input_tokens output_tokens
        cached_tokens).input_cost
    ∧ 0 ≤ ((get_model_pricing name).calculate_cost input_tokens output_tokens
        cached_tokens).cached_cost
    ∧ 0 ≤ ((get_model_pricing name).calculate_cost input_tokens output_tokens
        cached_tokens).output_cost
    ∧ 0 ≤ ((get_model_pricing name).calculate_cost input_tokens output_tokens
        cached_tokens).total_cost := by
  obtain ⟨hp1, hp2, hp3⟩ := get_model_pricing_nonneg name
  have h1 : (0 : ℚ) ≤ ((max 0 (input_tokens - cached_tokens) : ℤ) : ℚ) :=
    Int.cast_nonneg.mpr (le_max_left 0 _)
  have h2 : (0 : ℚ) ≤ ((cached_tokens : ℤ) : ℚ) := Int.cast_nonneg.mpr hc
  have h3 : (0 : ℚ) ≤ ((output_tokens : ℤ) : ℚ) := Int.cast_nonneg.mpr ho
  have hin : 0 ≤ ((max 0 (input_tokens - cached_tokens) : ℤ) : ℚ) / 1000000 *
      (get_model_pricing name).input_price :=
    mul_nonneg (div_nonneg h1 (by norm_num)) hp1
  have hca : 0 ≤ ((cached_tokens : ℤ) : ℚ) / 1000000 *
      (get_model_pricing name).cached_input_price :=
    mul_nonneg (div_nonneg h2 (by norm_num)) hp2
  have hou : 0 ≤ ((output_tokens : ℤ) : ℚ) / 1000000 *
      (get_model_pricing name).output_price :=
    mul_nonneg (div_nonneg h3 (by norm_num)) hp3
  exact ⟨rfl, hin, hca, hou, add_nonneg (add_nonneg hin hca) hou⟩

/-- C10 witness: the theorem applied to the `gpt-4o` entry with
`cached_tokens = 200` exceeding `input_tokens = 100`. -/
theorem c10_witness :
    (0 : ℤ) ≤ 100 ∧ (0 : ℤ) ≤ 50 ∧ (0 : ℤ) ≤ 200
    ∧ (((get_model_pricing "gpt-4o").calculate_cost 100 50 200).input_cost =
        ((max 0 (100 - 200 : ℤ) : ℤ) : ℚ) / 1000000 *
          (get_model_pricing "gpt-4o").input_price
      ∧ 0 ≤ ((get_model_pricing "gpt-4o").calculate_cost 100 50 200).input_cost
      ∧ 0 ≤ ((get_model_pricing "gpt-4o").calculate_cost 100 50 200).cached_cost
      ∧ 0 ≤ ((get_model_pricing "gpt-4o").calculate_cost 100 50 200).output_cost
      ∧ 0 ≤ ((get_model_pricing "gpt-4o").calculate_cost 100 50 200).total_cost) :=
  ⟨by norm_num, by norm_num, by norm_num,
    c10_cost_nonneg "gpt-4o" 100 50 200 (by norm_num) (by norm_num) (by norm_num)⟩

end Zanista
